import Mathlib

/-!
# Verification of the openapi-fetch request dispatcher

Shallow embedding of `src/index.ts` (current revision): the `createClient`
factory and the shared `coreFetch` request executor, together with the parts of
the platform (WHATWG `Headers`, `encodeURIComponent`, `URLSearchParams`,
JS string `replace`, `fetch`/`Response`) that the executor relies on.

The earlier revision of the file (kept in the repository alongside the current
one) differs in a few places: it trims path-parameter values, lacks the
204/Content-Length empty-body special case, and projects the response to a
`TruncatedResponse`.  The current revision is modelled as the program; the
`TruncatedResponse` projection of the earlier revision is also defined so that
claims about it can be settled against the current behaviour.
-/

namespace OpenapiFetch

/-! ## JavaScript values

Header-override records map header names to JS values that may be `null` or
`undefined` (the code's comment promises those erase the header).  The WHATWG
`Headers` constructor converts every record value to a DOM string first. -/

inductive JSVal where
  | str (s : String)
  | jsNull
  | jsUndef
deriving DecidableEq

/-- JS `String(v)` / ToString conversion as applied by the `Headers` record
constructor: `null` becomes `"null"`, `undefined` becomes `"undefined"`. -/
def jsToString : JSVal → String
  | .str s => s
  | .jsNull => "null"
  | .jsUndef => "undefined"

/-- The test `v === undefined || v === null` from the header-merge loop. -/
def isNullish : JSVal → Bool
  | .str _ => false
  | .jsNull => true
  | .jsUndef => true

/-! ## JSON values (parsed bodies) -/

inductive JValue where
  | obj (fields : List (String × JValue))
  | arr (elems : List JValue)
  | str (s : String)
  | bool (b : Bool)
  | null

/-- Minimal JSON string quoting (escapes backslash and double quote). -/
def quoteJSONString (s : String) : String :=
  "\"" ++ String.join (s.toList.map fun c =>
    if c = '\\' then "\\\\" else if c = '"' then "\\\"" else String.mk [c]) ++ "\""

mutual

/-- JS `JSON.stringify` for the modelled JSON values. -/
def stringifyJSON : JValue → String
  | .obj fields => "\x7b" ++ stringifyMembers fields ++ "\x7d"
  | .arr elems => "[" ++ stringifyElems elems ++ "]"
  | .str s => quoteJSONString s
  | .bool b => if b then "true" else "false"
  | .null => "null"

def stringifyMembers : List (String × JValue) → String
  | [] => ""
  | [p] => quoteJSONString p.1 ++ ":" ++ stringifyJSON p.2
  | p :: q :: rest =>
      quoteJSONString p.1 ++ ":" ++ stringifyJSON p.2 ++ "," ++ stringifyMembers (q :: rest)

def stringifyElems : List JValue → String
  | [] => ""
  | [x] => stringifyJSON x
  | x :: y :: rest => stringifyJSON x ++ "," ++ stringifyElems (y :: rest)

end

/-! ## Percent encoding (`encodeURIComponent`) -/

/-- Characters `encodeURIComponent` leaves unescaped:
letters, digits, and `- _ . ! ~ * ' ( )`. -/
def isUnreservedURIChar (c : Char) : Bool :=
  c.isAlpha || c.isDigit || [45, 95, 46, 33, 126, 42, 39, 40, 41].contains c.toNat

/-- Uppercase hexadecimal digit. -/
def hexDigitChar (n : Nat) : Char :=
  if n < 10 then Char.ofNat (48 + n) else Char.ofNat (55 + n)

/-- Percent escape `%HH` of one byte. -/
def byteHexEnc (b : Nat) : String :=
  String.mk ['%', hexDigitChar (b / 16), hexDigitChar (b % 16)]

/-- UTF-8 bytes of a Unicode code point. -/
def utf8BytesOfCode (n : Nat) : List Nat :=
  if n < 128 then [n]
  else if n < 2048 then [192 + n / 64, 128 + n % 64]
  else if n < 65536 then [224 + n / 4096, 128 + (n / 64) % 64, 128 + n % 64]
  else [240 + n / 262144, 128 + (n / 4096) % 64, 128 + (n / 64) % 64, 128 + n % 64]

/-- JS `encodeURIComponent`: unreserved characters pass through, every other
character is replaced by the `%HH` escapes of its UTF-8 bytes. -/
def encodeURIComponent (s : String) : String :=
  String.join (s.toList.map fun c =>
    if isUnreservedURIChar c then String.mk [c]
    else String.join ((utf8BytesOfCode c.toNat).map byteHexEnc))

/-! ## `URLSearchParams` serialization (default query serializer) -/

/-- Characters `application/x-www-form-urlencoded` leaves unescaped:
letters, digits, and `* - . _`. -/
def isUnreservedFormChar (c : Char) : Bool :=
  c.isAlpha || c.isDigit || [42, 45, 46, 95].contains c.toNat

/-- Form encoding of one string: space becomes `+`, unreserved characters pass
through, everything else is percent-escaped per UTF-8 byte. -/
def formEncode (s : String) : String :=
  String.join (s.toList.map fun c =>
    if c.toNat = 32 then "+"
    else if isUnreservedFormChar c then String.mk [c]
    else String.join ((utf8BytesOfCode c.toNat).map byteHexEnc))

/-- Evaluation of `new URLSearchParams(q).toString()` on a flat record of scalars. -/
def defaultQuerySerializer (q : List (String × String)) : String :=
  String.intercalate "&" (q.map fun p => formEncode p.1 ++ "=" ++ formEncode p.2)

/-! ## JS `String.prototype.replace` with a string pattern

With a string (non-regexp) pattern, JS `replace` rewrites only the **first**
occurrence of the pattern; if the pattern does not occur, the string is
returned unchanged.  (The replacement strings produced by
`encodeURIComponent` never contain `$`, so `$`-substitution cannot fire.) -/

def replFirstAux (pat repl : List Char) : List Char → List Char
  | [] => if pat.isPrefixOf ([] : List Char) then repl else []
  | c :: rest =>
      if pat.isPrefixOf (c :: rest) then repl ++ (c :: rest).drop pat.length
      else c :: replFirstAux pat repl rest

def replaceFirstStr (s pat repl : String) : String :=
  String.mk (replFirstAux pat.toList repl.toList s.toList)

/-! ## WHATWG `Headers`

A `Headers` object is a header list: an ordered list of (name, value) pairs
whose names are matched case-insensitively (modelled by storing names
lowercased, which is also how the pairs are serialized onto the wire).
`append` adds a pair; `set` replaces the value of the first pair with the
name and removes the others; `delete` removes every pair with the name;
`get` joins the values of all pairs with the name with a comma; iteration
(`entries()`) yields one pair per name, names sorted, values combined. -/

abbrev HeaderList := List (String × String)

/-- ASCII lowercasing of one character (header names are ASCII). -/
def lowerChar (c : Char) : Char :=
  if 65 ≤ c.toNat ∧ c.toNat ≤ 90 then Char.ofNat (c.toNat + 32) else c

/-- Case-insensitive header-name canonicalization. -/
def lowerName (s : String) : String := String.mk (s.toList.map lowerChar)

def headerAppend (h : HeaderList) (k v : String) : HeaderList :=
  h ++ [(lowerName k, v)]

def headerDelete (h : HeaderList) (k : String) : HeaderList :=
  h.filter fun p => p.1 ≠ lowerName k

/-- Replace the value of the first pair named `k` and drop the later ones
(`k` is already canonicalized here). -/
def setFirstVal (k v : String) : HeaderList → HeaderList
  | [] => []
  | p :: t => if p.1 = k then (k, v) :: t.filter (fun q => q.1 ≠ k) else p :: setFirstVal k v t

def headerSet (h : HeaderList) (k v : String) : HeaderList :=
  let k' := lowerName k
  if h.any (fun p => p.1 = k') then setFirstVal k' v h else h ++ [(k', v)]

def headerGet (h : HeaderList) (k : String) : Option String :=
  let vs := (h.filter fun p => p.1 = lowerName k).map Prod.snd
  if vs.isEmpty then none else some (String.intercalate ", " vs)

/-- Lexicographic (code-point) order on strings, for header-name sorting. -/
def strLeChars : List Char → List Char → Bool
  | [], _ => true
  | _ :: _, [] => false
  | a :: as, b :: bs => if a = b then strLeChars as bs else decide (a.toNat ≤ b.toNat)

def strLe (a b : String) : Bool := strLeChars a.toList b.toList

def insertSortedStr (x : String) : List String → List String
  | [] => [x]
  | y :: t => if strLe x y then x :: y :: t else y :: insertSortedStr x t

def sortStrings (l : List String) : List String := l.foldr insertSortedStr []

/-- The sort-and-combine iteration of a header list (`entries()`): one pair per
distinct name, names sorted, values of equal names joined with a comma. -/
def sortCombine (h : HeaderList) : HeaderList :=
  (sortStrings (h.map Prod.fst).dedup).map fun n =>
    (n, String.intercalate ", " ((h.filter fun p => p.1 = n).map Prod.snd))

def entriesOf (h : HeaderList) : HeaderList := sortCombine h

/-- Filling an empty `Headers` from a sequence of (name, value) pairs:
each pair is appended in order. -/
def fillFromPairs (ps : List (String × String)) : HeaderList :=
  ps.foldl (fun acc p => headerAppend acc p.1 p.2) []

/-- Cloning: `new Headers(h)` where `h` is an existing `Headers` object: the argument is
consumed as a sequence via its iterator (sort-and-combine) and appended
pairwise, producing an independent copy. -/
def headersClone (h : HeaderList) : HeaderList := fillFromPairs (entriesOf h)

/-- Construction `new Headers(rec)` where `rec` is a JS record: every record value is
converted to a DOM string (so `null` becomes `"null"`) and appended. -/
def headersFromRecord (rec : List (String × JSVal)) : HeaderList :=
  rec.foldl (fun acc p => headerAppend acc p.1 (jsToString p.2)) []

/-! ## JS record spread -/

/-- Define-or-overwrite one property of a JS object (value replaced in place
if the key exists, appended otherwise). -/
def setKey (a : List (String × JSVal)) (k : String) (v : JSVal) : List (String × JSVal) :=
  if a.any (fun p => p.1 = k) then a.map (fun p => if p.1 = k then (k, v) else p)
  else a ++ [(k, v)]

/-- JS object spread `\x7b...a, ...b\x7d`: start from `a`, define each of `b`'s
properties in order. -/
def spreadRecords (a b : List (String × JSVal)) : List (String × JSVal) :=
  b.foldl (fun acc p => setKey acc p.1 p.2) a

/-- Same, for string-valued records (the `RequestInit`-option spreads). -/
def setKeyStr (a : List (String × String)) (k v : String) : List (String × String) :=
  if a.any (fun p => p.1 = k) then a.map (fun p => if p.1 = k then (k, v) else p)
  else a ++ [(k, v)]

def spreadStr (a b : List (String × String)) : List (String × String) :=
  b.foldl (fun acc p => setKeyStr acc p.1 p.2) a

/-- First-match property lookup in a string-valued record. -/
def lookupStr (a : List (String × String)) (k : String) : Option String :=
  (a.find? fun p => p.1 = k).map Prod.snd

/-! ## Client and call options (`src/index.ts`)

`ClientOptions extends RequestInit` carries `baseUrl`, `headers`, and any
other default request options; the remaining `RequestInit` entries are kept
as a string-valued record (`rest`).  `FetchOptions` is destructured by
`coreFetch` into `headers`, `body`, `params`, `querySerializer`, and the
remaining entries `...init` (again kept as `rest`). -/

/-- The fixed baseline `DEFAULT_HEADERS = \x7b Content-Type: application/json \x7d`. -/
def DEFAULT_HEADERS : List (String × JSVal) :=
  [("Content-Type", .str "application/json")]

structure ClientOptions where
  baseUrl : Option String := none
  headers : List (String × JSVal) := []
  rest : List (String × String) := []

/-- The set `defaultHeaders = new Headers(\x7b ...DEFAULT_HEADERS, ...(options?.headers ?? \x7b\x7d) \x7d)`,
computed once per client in `createClient`. -/
def defaultHeadersOf (options : ClientOptions) : HeaderList :=
  headersFromRecord (spreadRecords DEFAULT_HEADERS options.headers)

/-- The request body supplied by the caller: a string passes through
unchanged, any other value is `JSON.stringify`-ed, an absent body
(`undefined`) stringifies to no body at all. -/
inductive BodyVal where
  | str (s : String)
  | json (j : JValue)
  | undef

/-- Body encoding `typeof requestBody === 'string' ? requestBody : JSON.stringify(requestBody)`. -/
def encodeBody : BodyVal → Option String
  | .str s => some s
  | .json j => some (stringifyJSON j)
  | .undef => none

/-- The `params` of a call: optional path-parameter and query-parameter records.
Values are the `String(v)` forms of the caller's scalars. -/
structure ParamsObj where
  path : Option (List (String × String)) := none
  query : Option (List (String × String)) := none

structure FetchOptions where
  headers : List (String × JSVal) := []
  body : BodyVal := .undef
  params : ParamsObj := {}
  querySerializer : Option (List (String × String) → String) := none
  rest : List (String × String) := []

/-! ## URL assembly (`coreFetch`, URL section) -/

/-- The loop `for (const [k, v] of Object.entries(params.path))
      finalURL = finalURL.replace('\x7b' + k + '\x7d', encodeURIComponent(String(v)))` -/
def substPathParams (pathParams : List (String × String)) (u : String) : String :=
  pathParams.foldl
    (fun acc p => replaceFirstStr acc ("\x7b" ++ p.1 ++ "\x7d") (encodeURIComponent p.2)) u

/-- The URL before the query step: base URL concatenated with the path
identifier, path parameters substituted. -/
def urlBeforeQuery (options : ClientOptions) (url : String) (fo : FetchOptions) : String :=
  let u0 := (options.baseUrl.getD "") ++ url
  match fo.params.path with
  | none => u0
  | some ps => substPathParams ps u0

/-- Full URL assembly: `?` plus the serializer output is appended only when a
query record is present and `Object.keys(query).length` is nonzero. -/
def buildFinalURL (options : ClientOptions) (url : String) (fo : FetchOptions) : String :=
  let u1 := urlBeforeQuery options url fo
  match fo.params.query with
  | none => u1
  | some q =>
      if q.length ≠ 0 then u1 ++ "?" ++ (fo.querySerializer.getD defaultQuerySerializer) q
      else u1

/-! ## Header merge (`coreFetch`, headers section) -/

/-- One step of the override loop.  `entries()` of a `Headers` yields DOM
strings, so the source's `v === undefined || v === null` test is applied to
a string value. -/
def applyOverride (b : HeaderList) (p : String × String) : HeaderList :=
  if isNullish (JSVal.str p.2) then headerDelete b p.1 else headerSet b p.1 p.2

/-- The merge `const baseHeaders = new Headers(defaultHeaders);
    const headerOverrides = new Headers(headers);
    for (const [k, v] of headerOverrides.entries()) \x7b ... \x7d` -/
def mergeHeaders (defaultHeaders : HeaderList) (overrides : List (String × JSVal)) : HeaderList :=
  let baseHeaders := headersClone defaultHeaders
  let headerOverrides := headersFromRecord overrides
  (entriesOf headerOverrides).foldl applyOverride baseHeaders

/-! ## Dispatch (`coreFetch`, fetch section) -/

/-- The `...options` spread of the client options into the fetch init:
`baseUrl` (when present) and the remaining client-level request options.
(The `headers` entry it may carry is irrelevant: the final object literal
overwrites `headers` and `body` with its own fields.) -/
def clientInitRec (options : ClientOptions) : List (String × String) :=
  (match options.baseUrl with
   | some b => [("baseUrl", b)]
   | none => []) ++ options.rest

def baselineInit : List (String × String) := [("redirect", "follow")]

/-- The request options dispatched besides `headers` and `body`:
`\x7b redirect: 'follow', ...options, ...init \x7d` with the `headers`/`body`
keys removed because the object literal overwrites them with the merged
headers and the encoded body. -/
def dispatchedInit (options : ClientOptions) (fo : FetchOptions) : List (String × String) :=
  (spreadStr (spreadStr baselineInit (clientInitRec options)) fo.rest).filter
    fun p => p.1 ≠ "headers" ∧ p.1 ≠ "body"

/-- The outgoing HTTP request handed to `fetch`. -/
structure Request where
  url : String
  headers : HeaderList
  body : Option String
  init : List (String × String)
deriving DecidableEq

/-- The request built by `coreFetch` from an explicit default-header set
(`coreFetch` closes over the client's `defaultHeaders`). -/
def buildRequestD (defaultHeaders : HeaderList) (options : ClientOptions) (url : String)
    (fo : FetchOptions) : Request :=
  { url := buildFinalURL options url fo
    headers := mergeHeaders defaultHeaders fo.headers
    body := encodeBody fo.body
    init := dispatchedInit options fo }

def buildRequest (options : ClientOptions) (url : String) (fo : FetchOptions) : Request :=
  buildRequestD (defaultHeadersOf options) options url fo

/-! ## Responses and envelopes -/

/-- A platform HTTP response: the metadata members plus the raw body text
consumed by `json()`. -/
structure Response where
  status : Nat
  statusText : String := ""
  headers : HeaderList := []
  url : String := ""
  redirected : Bool := false
  rtype : String := "basic"
  bodyUsed : Bool := false
  body : String := ""
deriving DecidableEq

/-- Success indicator `response.ok`: status in the 2xx range. -/
def respOk (r : Response) : Bool := 200 ≤ r.status && r.status ≤ 299

/-- The `TruncatedResponse` projection of the earlier revision: the response
without its body-consuming members (`arrayBuffer`, `blob`, `body`, `clone`,
`formData`, `json`, `text`). -/
structure TruncatedResponse where
  status : Nat
  statusText : String
  ok : Bool
  headers : HeaderList
  url : String
  redirected : Bool
  rtype : String
  bodyUsed : Bool
deriving DecidableEq

def truncateResponse (r : Response) : TruncatedResponse :=
  { status := r.status, statusText := r.statusText, ok := respOk r, headers := r.headers,
    url := r.url, redirected := r.redirected, rtype := r.rtype, bodyUsed := r.bodyUsed }

/-- The result envelope (`FetchResponse`): `data` on success, `error` on
failure, plus the underlying response. -/
structure FetchResponse where
  data : Option JValue := none
  error : Option JValue := none
  response : Response

/-- Why an executed call can reject: the network call failed, or `json()`
failed on the body. -/
inductive RejectReason where
  | network (msg : String)
  | parseFailure
deriving DecidableEq

/-- The test `response.status === 204 || response.headers.get('Content-Length') === '0'`. -/
def emptyBodyCase (r : Response) : Bool :=
  r.status == 204 || headerGet r.headers "Content-Length" == some "0"

/-- Envelope return `response.ok ? \x7b data: body, response \x7d : \x7b error: body, response \x7d`. -/
def mkEnvelope (r : Response) (body : JValue) : FetchResponse :=
  if respOk r then { data := some body, response := r }
  else { error := some body, response := r }

/-- Interpretation `const body = response.status === 204 || ... === '0' ? \x7b\x7d : await response.json()`
followed by the envelope return.  `parseJSON` is the platform JSON parser;
`none` is a parse failure, which rejects. -/
def interpretResponse (parseJSON : String → Option JValue) (r : Response) :
    Except RejectReason FetchResponse :=
  if emptyBodyCase r then .ok (mkEnvelope r (JValue.obj []))
  else
    match parseJSON r.body with
    | some j => .ok (mkEnvelope r j)
    | none => .error .parseFailure

/-- The platform: the network (`fetch`, which either rejects or produces a
response for the dispatched request) and the JSON parser used by `json()`. -/
structure Platform where
  fetchImpl : Request → Except String Response
  parseJSON : String → Option JValue

/-- The executor `coreFetch` with the closed-over default-header set passed explicitly. -/
def coreFetchD (defaultHeaders : HeaderList) (options : ClientOptions) (url : String)
    (fo : FetchOptions) (pf : Platform) : Except RejectReason FetchResponse :=
  match pf.fetchImpl (buildRequestD defaultHeaders options url fo) with
  | .error e => .error (.network e)
  | .ok r => interpretResponse pf.parseJSON r

/-- The shared request executor `coreFetch` of `createClient options`. -/
def coreFetch (options : ClientOptions) (url : String) (fo : FetchOptions) (pf : Platform) :
    Except RejectReason FetchResponse :=
  coreFetchD (defaultHeadersOf options) options url fo pf

/-- The spread `\x7b ...init, method: 'GET' \x7d` and friends: the verb wrappers add the
fixed method to the forwarded options. -/
def withMethod (fo : FetchOptions) (m : String) : FetchOptions :=
  { fo with rest := spreadStr fo.rest [("method", m)] }

def clientGet (options : ClientOptions) (url : String) (fo : FetchOptions) (pf : Platform) :=
  coreFetch options url (withMethod fo "GET") pf

def clientPut (options : ClientOptions) (url : String) (fo : FetchOptions) (pf : Platform) :=
  coreFetch options url (withMethod fo "PUT") pf

def clientPost (options : ClientOptions) (url : String) (fo : FetchOptions) (pf : Platform) :=
  coreFetch options url (withMethod fo "POST") pf

/-- The DELETE wrapper is named `del` in the source. -/
def clientDel (options : ClientOptions) (url : String) (fo : FetchOptions) (pf : Platform) :=
  coreFetch options url (withMethod fo "DELETE") pf

def clientOptionsVerb (options : ClientOptions) (url : String) (fo : FetchOptions) (pf : Platform) :=
  coreFetch options url (withMethod fo "OPTIONS") pf

def clientHead (options : ClientOptions) (url : String) (fo : FetchOptions) (pf : Platform) :=
  coreFetch options url (withMethod fo "HEAD") pf

def clientPatch (options : ClientOptions) (url : String) (fo : FetchOptions) (pf : Platform) :=
  coreFetch options url (withMethod fo "PATCH") pf

def clientTrace (options : ClientOptions) (url : String) (fo : FetchOptions) (pf : Platform) :=
  coreFetch options url (withMethod fo "TRACE") pf

/-! ## Mutable `Headers` objects as a heap

The default header set is a mutable `Headers` object shared by every call of
one client; `coreFetch` clones it (`new Headers(defaultHeaders)`) and mutates
only the clone.  To state that the defaults are never mutated, the executor is
also given in an explicit-heap form, where `Headers` objects live in a store
of header lists addressed by allocation order. -/

abbrev Heap := List HeaderList

def heapRead (s : Heap) (r : Nat) : HeaderList := (s[r]?).getD []

def heapWrite (s : Heap) (r : Nat) (v : HeaderList) : Heap := s.set r v

def heapAlloc (s : Heap) (v : HeaderList) : Heap × Nat := (s ++ [v], s.length)

/-- Heap form of `createClient`: allocate the client's `defaultHeaders` object. -/
def createClientSt (options : ClientOptions) (s : Heap) : Heap × Nat :=
  heapAlloc s (defaultHeadersOf options)

/-- The header-merge section of `coreFetch` on the heap: clone the defaults
into a fresh object, build the override `Headers`, and run the override loop
mutating the clone. -/
def mergeHeadersSt (s : Heap) (defRef : Nat) (overrides : List (String × JSVal)) :
    Heap × Nat :=
  let a1 := heapAlloc s (headersClone (heapRead s defRef))
  let a2 := heapAlloc a1.1 (headersFromRecord overrides)
  let s3 := (entriesOf (heapRead a2.1 a2.2)).foldl
    (fun t p => heapWrite t a1.2 (applyOverride (heapRead t a1.2) p)) a2.1
  (s3, a1.2)

/-- Heap form of `coreFetch`: same computation as `coreFetchD`, with the
header merge performed on mutable `Headers` objects. -/
def coreFetchSt (defRef : Nat) (options : ClientOptions) (url : String) (fo : FetchOptions)
    (pf : Platform) (s : Heap) : Except RejectReason FetchResponse × Heap :=
  let m := mergeHeadersSt s defRef fo.headers
  let req : Request :=
    { url := buildFinalURL options url fo
      headers := heapRead m.1 m.2
      body := encodeBody fo.body
      init := dispatchedInit options fo }
  (match pf.fetchImpl req with
   | .error e => .error (.network e)
   | .ok r => interpretResponse pf.parseJSON r, m.1)

/-! ## Concrete platforms and responses used by the witnesses -/

def demoResponse200 : Response := { status := 200, body := "[]" }

def demoResponse404 : Response := { status := 404, body := "\x7b\x7d" }

def demoResponse204 : Response := { status := 204, body := "" }

/-- A platform whose network always answers 200 with body `[]`, parsed to an
empty array. -/
def demoPlatform200 : Platform :=
  { fetchImpl := fun _ => .ok demoResponse200
    parseJSON := fun s => if s = "[]" then some (JValue.arr []) else none }

/-- A platform whose network always answers 404 with body an empty object. -/
def demoPlatform404 : Platform :=
  { fetchImpl := fun _ => .ok demoResponse404
    parseJSON := fun s => if s = "\x7b\x7d" then some (JValue.obj []) else none }

/-- A platform whose network always answers 204 and whose parser rejects
everything. -/
def demoPlatform204 : Platform :=
  { fetchImpl := fun _ => .ok demoResponse204
    parseJSON := fun _ => none }

/-- The client of the header-deletion scenario: a default `Cache-Control`
header on top of the `Content-Type` baseline. -/
def clientWithCacheControl : ClientOptions :=
  { headers := [("Cache-Control", .str "max-age=10000000")] }

/-! ## Helper lemmas about envelopes -/

theorem coreFetchD_of_fetch_ok (dh : HeaderList) (options : ClientOptions) (url : String)
    (fo : FetchOptions) (pf : Platform) (r : Response)
    (h : pf.fetchImpl (buildRequestD dh options url fo) = .ok r) :
    coreFetchD dh options url fo pf = interpretResponse pf.parseJSON r := by
  unfold coreFetchD
  rw [h]

theorem coreFetchD_of_fetch_error (dh : HeaderList) (options : ClientOptions) (url : String)
    (fo : FetchOptions) (pf : Platform) (msg : String)
    (h : pf.fetchImpl (buildRequestD dh options url fo) = .error msg) :
    coreFetchD dh options url fo pf = .error (.network msg) := by
  unfold coreFetchD
  rw [h]

theorem coreFetch_of_fetch_ok (options : ClientOptions) (url : String)
    (fo : FetchOptions) (pf : Platform) (r : Response)
    (h : pf.fetchImpl (buildRequest options url fo) = .ok r) :
    coreFetch options url fo pf = interpretResponse pf.parseJSON r :=
  coreFetchD_of_fetch_ok (defaultHeadersOf options) options url fo pf r h

theorem coreFetch_of_fetch_error (options : ClientOptions) (url : String)
    (fo : FetchOptions) (pf : Platform) (msg : String)
    (h : pf.fetchImpl (buildRequest options url fo) = .error msg) :
    coreFetch options url fo pf = .error (.network msg) :=
  coreFetchD_of_fetch_error (defaultHeadersOf options) options url fo pf msg h

theorem interpretResponse_ok (parseJSON : String → Option JValue) (r : Response)
    (env : FetchResponse) (h : interpretResponse parseJSON r = .ok env) :
    ∃ j, env = mkEnvelope r j := by
  unfold interpretResponse at h
  split at h
  · exact ⟨JValue.obj [], by injection h with h; exact h.symm⟩
  · split at h
    · next j hj => exact ⟨j, by injection h with h; exact h.symm⟩
    · cases h

theorem mkEnvelope_response (r : Response) (j : JValue) : (mkEnvelope r j).response = r := by
  unfold mkEnvelope; split <;> rfl

theorem mkEnvelope_data_isSome (r : Response) (j : JValue) :
    (mkEnvelope r j).data.isSome = respOk r := by
  unfold mkEnvelope; split <;> simp_all

theorem mkEnvelope_cases (r : Response) (j : JValue) :
    (respOk r = true ∧ (mkEnvelope r j).data = some j ∧ (mkEnvelope r j).error = none) ∨
    (respOk r = false ∧ (mkEnvelope r j).data = none ∧ (mkEnvelope r j).error = some j) := by
  unfold mkEnvelope
  by_cases h : respOk r = true
  · left; simp [h]
  · right; simp_all

theorem coreFetch_ok (options : ClientOptions) (url : String) (fo : FetchOptions)
    (pf : Platform) (env : FetchResponse)
    (h : coreFetch options url fo pf = .ok env) :
    ∃ r, pf.fetchImpl (buildRequest options url fo) = .ok r ∧
      interpretResponse pf.parseJSON r = .ok env := by
  unfold coreFetch coreFetchD at h
  split at h
  · cases h
  · next r hr => exact ⟨r, by rw [← hr]; rfl, h⟩

/-! ## Helper lemmas about record lookups -/

theorem lookupStr_nil (k : String) : lookupStr [] k = none := rfl

theorem lookupStr_cons (p : String × String) (t : List (String × String)) (k : String) :
    lookupStr (p :: t) k = if p.1 = k then some p.2 else lookupStr t k := by
  by_cases h : p.1 = k <;> simp [lookupStr, List.find?, h]

theorem lookup_map_setKey (t : List (String × String)) (k v k' : String) :
    lookupStr (t.map fun p => if p.1 = k then (k, v) else p) k' =
      if k' = k then (if t.any (fun p => p.1 = k) then some v else none)
      else lookupStr t k' := by
  induction t with
  | nil => by_cases hk : k' = k <;> simp [lookupStr_nil, hk]
  | cons p t ih =>
    simp only [List.map_cons]
    by_cases hp : p.1 = k
    · rw [show (if p.1 = k then (k, v) else p) = (k, v) from if_pos hp, lookupStr_cons]
      by_cases hk : k' = k
      · subst hk; simp [ih, hp]
      · have h1 : ¬ (k, v).1 = k' := fun hh => hk hh.symm
        have h2 : ¬ p.1 = k' := by rw [hp]; exact fun hh => hk hh.symm
        simp [h1, h2, ih, hk, lookupStr_cons]
    · rw [show (if p.1 = k then (k, v) else p) = p from if_neg hp, lookupStr_cons,
        lookupStr_cons]
      by_cases hpk : p.1 = k'
      · have hk : ¬ k' = k := fun hh => hp (hpk.trans hh)
        simp [hpk, hk]
      · rw [if_neg hpk, if_neg hpk, ih, List.any_cons,
          show decide (p.1 = k) = false from decide_eq_false hp, Bool.false_or]

theorem lookup_append_single (a : List (String × String)) (k v k' : String)
    (ha : a.any (fun p => p.1 = k) = false) :
    lookupStr (a ++ [(k, v)]) k' = if k' = k then some v else lookupStr a k' := by
  induction a with
  | nil =>
    simp only [List.nil_append, lookupStr_nil]
    rw [lookupStr_cons]
    by_cases hk : k' = k
    · subst hk; simp
    · rw [if_neg (show ¬ (k, v).1 = k' from fun hh => hk hh.symm), if_neg hk]
      exact lookupStr_nil k'
  | cons p t ih =>
    simp only [List.any_cons, Bool.or_eq_false_iff, decide_eq_false_iff_not] at ha
    rw [List.cons_append, lookupStr_cons, lookupStr_cons]
    by_cases hpk : p.1 = k'
    · have hk : ¬ k' = k := fun hh => ha.1 (hpk.trans hh)
      simp [hpk, hk]
    · rw [if_neg hpk, if_neg hpk, ih ha.2]

theorem lookup_setKeyStr (a : List (String × String)) (k v k' : String) :
    lookupStr (setKeyStr a k v) k' = if k' = k then some v else lookupStr a k' := by
  unfold setKeyStr
  by_cases ha : a.any (fun p => p.1 = k) = true
  · rw [if_pos ha, lookup_map_setKey]
    simp [ha]
  · have ha' : a.any (fun p => p.1 = k) = false := by
      cases h : a.any (fun p => p.1 = k)
      · rfl
      · exact absurd h ha
    rw [if_neg ha, lookup_append_single a k v k' ha']

theorem lookupStr_eq_none_of_not_mem (a : List (String × String)) (k : String)
    (h : k ∉ a.map Prod.fst) : lookupStr a k = none := by
  have hfind : a.find? (fun p => p.1 = k) = none := by
    rw [List.find?_eq_none]
    intro x hx
    simp only [decide_eq_true_eq]
    exact fun hk => h (List.mem_map.mpr ⟨x, hx, hk⟩)
  unfold lookupStr
  rw [hfind]
  rfl

theorem lookup_spreadStr (a b : List (String × String)) (k : String)
    (hb : (b.map Prod.fst).Nodup) :
    lookupStr (spreadStr a b) k =
      match lookupStr b k with
      | some v => some v
      | none => lookupStr a k := by
  induction b generalizing a with
  | nil => rfl
  | cons p t ih =>
    simp only [List.map_cons, List.nodup_cons] at hb
    rw [show spreadStr a (p :: t) = spreadStr (setKeyStr a p.1 p.2) t from rfl,
      ih _ hb.2, lookupStr_cons]
    by_cases hk : k = p.1
    · subst hk
      rw [lookupStr_eq_none_of_not_mem t p.1 hb.1]
      simp [lookup_setKeyStr]
    · have hpk : ¬ p.1 = k := fun hh => hk hh.symm
      rw [if_neg hpk,
        show lookupStr (setKeyStr a p.1 p.2) k = lookupStr a k from by
          rw [lookup_setKeyStr, if_neg hk]]

theorem lookup_filter_hb (a : List (String × String)) (k : String)
    (h1 : k ≠ "headers") (h2 : k ≠ "body") :
    lookupStr (a.filter fun p => p.1 ≠ "headers" ∧ p.1 ≠ "body") k = lookupStr a k := by
  induction a with
  | nil => rfl
  | cons p t ih =>
    by_cases hph : p.1 = "headers" ∨ p.1 = "body"
    · have hpk : ¬ p.1 = k := by
        rcases hph with hh | hh <;> rw [hh] <;> exact fun hc => by simp_all
      have hfil : (p :: t).filter (fun p => p.1 ≠ "headers" ∧ p.1 ≠ "body") =
          t.filter (fun p => p.1 ≠ "headers" ∧ p.1 ≠ "body") := by
        rcases hph with hh | hh <;> simp [List.filter_cons, hh]
      rw [hfil, ih, lookupStr_cons, if_neg hpk]
    · push_neg at hph
      have hfil : (p :: t).filter (fun p => p.1 ≠ "headers" ∧ p.1 ≠ "body") =
          p :: t.filter (fun p => p.1 ≠ "headers" ∧ p.1 ≠ "body") := by
        simp [List.filter_cons, hph.1, hph.2]
      rw [hfil, lookupStr_cons, lookupStr_cons]
      by_cases hpk : p.1 = k
      · rw [if_pos hpk, if_pos hpk]
      · rw [if_neg hpk, if_neg hpk, ih]

/-! ## Helper lemmas about first-occurrence replacement -/

theorem replFirstAux_cons (pat repl : List Char) (c : Char) (rest : List Char) :
    replFirstAux pat repl (c :: rest) =
      if pat.isPrefixOf (c :: rest) then repl ++ (c :: rest).drop pat.length
      else c :: replFirstAux pat repl rest := rfl

/-- JS `replace` rewrites the occurrence of the pattern starting at the end of
`A` when no occurrence starts earlier (no occurrence fits inside
`(A ++ pat).dropLast`, the part of the string where an earlier occurrence
would have to live). -/
theorem replFirstAux_at_first (pat repl A B : List Char) (hpat : pat ≠ [])
    (h : ¬ pat <:+: (A ++ pat).dropLast) :
    replFirstAux pat repl (A ++ pat ++ B) = A ++ repl ++ B := by
  induction A with
  | nil =>
    obtain ⟨c, pr, rfl⟩ : ∃ c pr, pat = c :: pr := by
      cases pat with
      | nil => exact absurd rfl hpat
      | cons c pr => exact ⟨c, pr, rfl⟩
    rw [List.nil_append, List.cons_append, replFirstAux_cons,
      if_pos (List.isPrefixOf_iff_prefix.mpr
        (by rw [← List.cons_append]; exact List.prefix_append _ B)),
      ← List.cons_append, List.drop_left, List.nil_append]
  | cons a A' ih =>
    have hne : A' ++ pat ≠ [] := by
      intro hcon
      exact hpat (List.append_eq_nil.mp hcon).2
    have hnpre : ¬ pat <+: (a :: (A' ++ pat ++ B)) := by
      intro hpre
      apply h
      have h1 : pat = (a :: (A' ++ pat ++ B)).take pat.length :=
        List.prefix_iff_eq_take.mp hpre
      have h2 : (a :: (A' ++ pat ++ B)) = (a :: (A' ++ pat)) ++ B := by simp
      have h3 : (a :: (A' ++ pat ++ B)).take pat.length =
          (a :: (A' ++ pat)).take pat.length := by
        rw [h2]
        exact List.take_append_of_le_length (by simp; omega)
      have h5 : ((a :: A') ++ pat).dropLast.take pat.length =
          ((a :: A') ++ pat).take pat.length := by
        rw [List.dropLast_eq_take, List.take_take]
        congr 1
        have : pat.length ≤ ((a :: A') ++ pat).length - 1 := by
          simp [List.length_append]
        omega
      have h6 : pat <+: ((a :: A') ++ pat).dropLast := by
        rw [List.prefix_iff_eq_take, h5,
          show ((a :: A') ++ pat) = a :: (A' ++ pat) from by simp, ← h3, ← h1]
      exact h6.isInfix
    have hnpreB : ¬ (pat.isPrefixOf (a :: (A' ++ pat ++ B)) = true) :=
      fun hb => hnpre (List.isPrefixOf_iff_prefix.mp hb)
    have hih : ¬ pat <:+: (A' ++ pat).dropLast := by
      intro hinf
      apply h
      have hsub : (A' ++ pat).dropLast <:+: ((a :: A') ++ pat).dropLast := by
        rw [show ((a :: A') ++ pat) = a :: (A' ++ pat) from by simp,
          List.dropLast_cons_of_ne_nil hne]
        exact (List.suffix_cons a _).isInfix
      exact hinf.trans hsub
    rw [show (a :: A') ++ pat ++ B = a :: (A' ++ pat ++ B) from by simp,
      replFirstAux_cons, if_neg hnpreB, ih hih]
    simp

/-! ## Helper lemmas about header names -/

theorem lowerChar_idem (c : Char) : lowerChar (lowerChar c) = lowerChar c := by
  unfold lowerChar
  by_cases h : 65 ≤ c.toNat ∧ c.toNat ≤ 90
  · rw [if_pos h]
    have htn : (Char.ofNat (c.toNat + 32)).toNat = c.toNat + 32 := by
      unfold Char.ofNat
      rw [dif_pos (Or.inl (by omega))]
      rfl
    rw [if_neg (by rw [htn]; omega)]
  · rw [if_neg h, if_neg h]

theorem lowerName_idem (s : String) : lowerName (lowerName s) = lowerName s := by
  unfold lowerName
  rw [show (String.mk (s.toList.map lowerChar)).toList = s.toList.map lowerChar from rfl,
    List.map_map]
  congr 1
  exact List.map_congr_left fun a _ => lowerChar_idem a

theorem names_headersFromRecord (rec : List (String × JSVal)) :
    (headersFromRecord rec).map Prod.fst = rec.map fun p => lowerName p.1 := by
  suffices h : ∀ acc : HeaderList,
      ((rec.foldl (fun acc p => headerAppend acc p.1 (jsToString p.2)) acc).map Prod.fst) =
        acc.map Prod.fst ++ rec.map fun p => lowerName p.1 by
    simpa using h []
  induction rec with
  | nil => intro acc; simp
  | cons p t ih =>
    intro acc
    rw [List.foldl_cons, ih]
    unfold headerAppend
    simp

theorem names_fillFromPairs (ps : List (String × String)) :
    (fillFromPairs ps).map Prod.fst = ps.map fun p => lowerName p.1 := by
  suffices h : ∀ acc : HeaderList,
      ((ps.foldl (fun acc p => headerAppend acc p.1 p.2) acc).map Prod.fst) =
        acc.map Prod.fst ++ ps.map fun p => lowerName p.1 by
    simpa using h []
  induction ps with
  | nil => intro acc; simp
  | cons p t ih =>
    intro acc
    rw [List.foldl_cons, ih]
    unfold headerAppend
    simp

theorem insertSortedStr_perm (x : String) (l : List String) :
    (insertSortedStr x l).Perm (x :: l) := by
  induction l with
  | nil => exact List.Perm.refl _
  | cons y t ih =>
    unfold insertSortedStr
    by_cases hb : strLe x y = true
    · rw [if_pos hb]
    · rw [if_neg hb]
      exact (ih.cons y).trans (List.Perm.swap x y t)

theorem sortStrings_perm (l : List String) : (sortStrings l).Perm l := by
  induction l with
  | nil => exact List.Perm.refl _
  | cons x t ih =>
    unfold sortStrings at ih ⊢
    rw [List.foldr_cons]
    exact (insertSortedStr_perm x _).trans (ih.cons x)

theorem names_sortCombine (h : HeaderList) :
    (sortCombine h).map Prod.fst = sortStrings (h.map Prod.fst).dedup := by
  unfold sortCombine
  rw [List.map_map]
  rw [show (Prod.fst ∘ fun n =>
      (n, String.intercalate ", " ((h.filter fun p => p.1 = n).map Prod.snd))) =
    fun n => n from rfl]
  exact List.map_id _

theorem nodup_names_sortCombine (h : HeaderList) : ((sortCombine h).map Prod.fst).Nodup := by
  rw [names_sortCombine]
  exact (sortStrings_perm _).symm.nodup (List.nodup_dedup _)

theorem mem_names_sortCombine (h : HeaderList) (n : String)
    (hn : n ∈ (sortCombine h).map Prod.fst) : n ∈ h.map Prod.fst := by
  rw [names_sortCombine] at hn
  exact List.mem_dedup.mp ((sortStrings_perm _).mem_iff.mp hn)

theorem names_headersClone (h : HeaderList) (hl : ∀ p ∈ h, lowerName p.1 = p.1) :
    (headersClone h).map Prod.fst = sortStrings (h.map Prod.fst).dedup := by
  have hpt : ∀ p ∈ sortCombine h, lowerName p.1 = p.1 := by
    intro p hp
    have hmem : p.1 ∈ h.map Prod.fst :=
      mem_names_sortCombine h p.1 (List.mem_map_of_mem Prod.fst hp)
    obtain ⟨q, hq, hq1⟩ := List.mem_map.mp hmem
    rw [← hq1]
    exact hl q hq
  calc (headersClone h).map Prod.fst
      = (sortCombine h).map (fun p => lowerName p.1) := names_fillFromPairs _
    _ = (sortCombine h).map Prod.fst := List.map_congr_left hpt
    _ = sortStrings (h.map Prod.fst).dedup := names_sortCombine h

theorem nodup_names_headersClone (h : HeaderList) (hl : ∀ p ∈ h, lowerName p.1 = p.1) :
    ((headersClone h).map Prod.fst).Nodup := by
  rw [names_headersClone h hl]
  exact (sortStrings_perm _).symm.nodup (List.nodup_dedup _)

theorem names_setFirstVal_sublist (k v : String) (h : HeaderList) :
    ((setFirstVal k v h).map Prod.fst).Sublist (h.map Prod.fst) := by
  induction h with
  | nil => exact List.Sublist.refl _
  | cons p t ih =>
    unfold setFirstVal
    by_cases hp : p.1 = k
    · rw [if_pos hp]
      simp only [List.map_cons]
      rw [hp]
      exact ((List.filter_sublist t).map Prod.fst).cons₂ k
    · rw [if_neg hp]
      simp only [List.map_cons]
      exact ih.cons₂ p.1

theorem nodup_names_headerSet (h : HeaderList) (k v : String)
    (hn : (h.map Prod.fst).Nodup) : ((headerSet h k v).map Prod.fst).Nodup := by
  simp only [headerSet]
  by_cases ha : h.any (fun p => p.1 = lowerName k) = true
  · rw [if_pos ha]
    exact List.Nodup.sublist (names_setFirstVal_sublist _ _ h) hn
  · rw [if_neg ha]
    have hnot : lowerName k ∉ h.map Prod.fst := by
      intro hmem
      obtain ⟨q, hq, hq1⟩ := List.mem_map.mp hmem
      exact ha (List.any_eq_true.mpr ⟨q, hq, by simp [hq1]⟩)
    simp [List.nodup_append, hn, hnot]

theorem nodup_names_applyOverride (b : HeaderList) (p : String × String)
    (hn : (b.map Prod.fst).Nodup) : ((applyOverride b p).map Prod.fst).Nodup := by
  unfold applyOverride
  by_cases hd : isNullish (JSVal.str p.2) = true
  · rw [if_pos hd]
    exact List.Nodup.sublist ((List.filter_sublist b).map Prod.fst) hn
  · rw [if_neg hd]
    exact nodup_names_headerSet b p.1 p.2 hn

theorem nodup_names_override_fold (entries : List (String × String)) (b : HeaderList)
    (hn : (b.map Prod.fst).Nodup) :
    ((entries.foldl applyOverride b).map Prod.fst).Nodup := by
  induction entries generalizing b with
  | nil => exact hn
  | cons p t ih => exact ih _ (nodup_names_applyOverride b p hn)

theorem allLower_defaultHeadersOf (options : ClientOptions) :
    ∀ p ∈ defaultHeadersOf options, lowerName p.1 = p.1 := by
  intro p hp
  have hmem : p.1 ∈ (defaultHeadersOf options).map Prod.fst :=
    List.mem_map_of_mem Prod.fst hp
  unfold defaultHeadersOf at hmem
  rw [names_headersFromRecord] at hmem
  obtain ⟨q, hq, hq1⟩ := List.mem_map.mp hmem
  rw [← hq1]
  exact lowerName_idem q.1

theorem filter_setFirstVal (k v : String) (h : HeaderList)
    (ha : h.any (fun p => p.1 = k) = true) :
    (setFirstVal k v h).filter (fun p => p.1 = k) = [(k, v)] := by
  induction h with
  | nil => simp at ha
  | cons p t ih =>
    unfold setFirstVal
    by_cases hp : p.1 = k
    · rw [if_pos hp]
      have h1 : ((t.filter fun q => q.1 ≠ k).filter fun p => p.1 = k) = [] := by
        rw [List.filter_filter]
        exact List.filter_eq_nil_iff.mpr fun a _ => by simp
      simp [List.filter_cons, h1]
    · rw [if_neg hp]
      have ha' : t.any (fun p => p.1 = k) = true := by
        simp only [List.any_cons, Bool.or_eq_true, decide_eq_true_eq] at ha
        rcases ha with hc | hc
        · exact absurd hc hp
        · exact hc
      rw [List.filter_cons, if_neg (by simp [hp])]
      exact ih ha'

theorem filter_eq_nil_of_not_any (h : HeaderList) (k : String)
    (ha : ¬ h.any (fun p => p.1 = k) = true) :
    h.filter (fun p => p.1 = k) = [] := by
  refine List.filter_eq_nil_iff.mpr fun a hmem => ?_
  simp only [decide_eq_true_eq]
  intro hak
  exact ha (List.any_eq_true.mpr ⟨a, hmem, by simp [hak]⟩)

theorem headerGet_headerSet (h : HeaderList) (k v : String) :
    headerGet (headerSet h k v) (lowerName k) = some v := by
  simp only [headerGet, headerSet]
  rw [lowerName_idem]
  by_cases ha : h.any (fun p => p.1 = lowerName k) = true
  · rw [if_pos ha, filter_setFirstVal _ _ _ ha]
    rfl
  · rw [if_neg ha, List.filter_append, filter_eq_nil_of_not_any h _ ha]
    simp
    rfl

/-! ## Helper lemmas about the heap of `Headers` objects -/

theorem heapRead_append_lt (s : Heap) (v : HeaderList) (r : Nat) (h : r < s.length) :
    heapRead (s ++ [v]) r = heapRead s r := by
  unfold heapRead
  rw [List.getElem?_append_left h]

theorem heapRead_append_self (s : Heap) (v : HeaderList) :
    heapRead (s ++ [v]) s.length = v := by
  unfold heapRead
  rw [List.getElem?_concat_length]
  rfl

theorem heapRead_write_ne (s : Heap) (r r' : Nat) (v : HeaderList) (h : r' ≠ r) :
    heapRead (heapWrite s r' v) r = heapRead s r := by
  unfold heapRead heapWrite
  rw [List.getElem?_set_ne h]

theorem heapRead_write_self (s : Heap) (r : Nat) (v : HeaderList) (h : r < s.length) :
    heapRead (heapWrite s r v) r = v := by
  unfold heapRead heapWrite
  rw [List.getElem?_set_self h]
  rfl

theorem heapWrite_length (s : Heap) (r : Nat) (v : HeaderList) :
    (heapWrite s r v).length = s.length :=
  List.length_set s r v

theorem override_fold_st_length (entries : List (String × String)) (st : Heap) (bR : Nat) :
    (entries.foldl (fun t p => heapWrite t bR (applyOverride (heapRead t bR) p)) st).length =
      st.length := by
  induction entries generalizing st with
  | nil => rfl
  | cons p t ih =>
    rw [List.foldl_cons]
    calc (t.foldl (fun t p => heapWrite t bR (applyOverride (heapRead t bR) p))
            (heapWrite st bR (applyOverride (heapRead st bR) p))).length
        = (heapWrite st bR (applyOverride (heapRead st bR) p)).length := ih _
      _ = st.length := heapWrite_length _ _ _

theorem override_fold_st_read_other (entries : List (String × String)) (st : Heap)
    (bR r : Nat) (h : r ≠ bR) :
    heapRead (entries.foldl
        (fun t p => heapWrite t bR (applyOverride (heapRead t bR) p)) st) r =
      heapRead st r := by
  induction entries generalizing st with
  | nil => rfl
  | cons p t ih =>
    rw [List.foldl_cons, ih _, heapRead_write_ne _ _ _ _ (fun hh => h hh.symm)]

theorem override_fold_st_read_self (entries : List (String × String)) (st : Heap)
    (bR : Nat) (hb : bR < st.length) :
    heapRead (entries.foldl
        (fun t p => heapWrite t bR (applyOverride (heapRead t bR) p)) st) bR =
      entries.foldl applyOverride (heapRead st bR) := by
  induction entries generalizing st with
  | nil => rfl
  | cons p t ih =>
    rw [List.foldl_cons, List.foldl_cons,
      ih _ (by rw [heapWrite_length]; exact hb), heapRead_write_self _ _ _ hb]

theorem mergeHeadersSt_read_defaults (s : Heap) (defRef : Nat)
    (overrides : List (String × JSVal)) (h : defRef < s.length) :
    heapRead (mergeHeadersSt s defRef overrides).1 defRef = heapRead s defRef := by
  simp only [mergeHeadersSt, heapAlloc]
  rw [override_fold_st_read_other _ _ _ _ (Nat.ne_of_lt h),
    heapRead_append_lt _ _ _ (by simp; omega), heapRead_append_lt _ _ _ h]

theorem mergeHeadersSt_read_base (s : Heap) (defRef : Nat)
    (overrides : List (String × JSVal)) :
    heapRead (mergeHeadersSt s defRef overrides).1 (mergeHeadersSt s defRef overrides).2 =
      mergeHeaders (heapRead s defRef) overrides := by
  simp only [mergeHeadersSt, heapAlloc, mergeHeaders]
  rw [override_fold_st_read_self _ _ _ (by simp),
    heapRead_append_self, heapRead_append_lt _ _ _ (by simp), heapRead_append_self]

theorem coreFetchSt_fst (defRef : Nat) (options : ClientOptions) (url : String)
    (fo : FetchOptions) (pf : Platform) (s : Heap) :
    (coreFetchSt defRef options url fo pf s).1 =
      coreFetchD (heapRead s defRef) options url fo pf := by
  simp only [coreFetchSt, coreFetchD, buildRequestD]
  rw [mergeHeadersSt_read_base]

theorem sortCombine_single (n v : String) : sortCombine [(n, v)] = [(n, v)] := by
  unfold sortCombine
  rw [show ([(n, v)] : HeaderList).map Prod.fst = [n] from rfl,
    show ([n] : List String).dedup = [n] from rfl,
    show sortStrings [n] = [n] from rfl]
  simp [List.filter_cons]
  rfl

theorem headerGet_lowerName (h : HeaderList) (k : String) :
    headerGet h (lowerName k) = headerGet h k := by
  unfold headerGet
  rw [lowerName_idem]

/-! ## Claim theorems -/

/-- C1: for every call through the shared executor (hence through any verb
callable, which merely forwards with its method fixed) and every HTTP
response, the returned envelope has exactly one of `data`/`error` present and
the other absent, and which one is present is determined solely by the
response's ok indicator (2xx status), independent of the parsed body's value
(the parser and body are universally quantified). -/
theorem result_envelope_exclusive (options : ClientOptions) (url : String) (fo : FetchOptions)
    (pf : Platform) (env : FetchResponse) (h : coreFetch options url fo pf = .ok env) :
    ((env.data.isSome = true ∧ env.error = none) ∨
      (env.error.isSome = true ∧ env.data = none)) ∧
    (env.data.isSome = true ↔ respOk env.response = true) := by
  obtain ⟨r, -, hir⟩ := coreFetch_ok options url fo pf env h
  obtain ⟨j, rfl⟩ := interpretResponse_ok pf.parseJSON r env hir
  rcases mkEnvelope_cases r j with ⟨hok, hd, he⟩ | ⟨hok, hd, he⟩ <;>
    simp [hd, he, mkEnvelope_response, hok]

/-- Witness for C1: a concrete 200 call carries `data` and no `error`. -/
theorem result_envelope_exclusive_witness :
    (((mkEnvelope demoResponse200 (JValue.arr [])).data.isSome = true ∧
        (mkEnvelope demoResponse200 (JValue.arr [])).error = none) ∨
      ((mkEnvelope demoResponse200 (JValue.arr [])).error.isSome = true ∧
        (mkEnvelope demoResponse200 (JValue.arr [])).data = none)) ∧
    ((mkEnvelope demoResponse200 (JValue.arr [])).data.isSome = true ↔
      respOk (mkEnvelope demoResponse200 (JValue.arr [])).response = true) :=
  result_envelope_exclusive {} "/string-array" {} demoPlatform200
    (mkEnvelope demoResponse200 (JValue.arr [])) rfl

/-- C3: when the status is 204 or the response declares `Content-Length: 0`,
no JSON parse is attempted (the result is the same for every parser) and the
body used is the empty structure, uniformly on the success branch
(`data = \x7b\x7d`) and the failure branch (`error = \x7b\x7d`). -/
theorem empty_body_uniform (parseJSON : String → Option JValue) (r : Response)
    (h : emptyBodyCase r = true) :
    interpretResponse parseJSON r = .ok (mkEnvelope r (JValue.obj [])) ∧
    (respOk r = true →
      interpretResponse parseJSON r =
        .ok { data := some (JValue.obj []), error := none, response := r }) ∧
    (respOk r = false →
      interpretResponse parseJSON r =
        .ok { data := none, error := some (JValue.obj []), response := r }) := by
  refine ⟨by unfold interpretResponse; rw [h]; rfl, ?_, ?_⟩ <;> intro hok <;>
    unfold interpretResponse <;> rw [h] <;> unfold mkEnvelope <;> simp [hok]

/-- Witness for C3: a concrete 204 response with a parser that rejects
everything still yields `data = \x7b\x7d`. -/
theorem empty_body_uniform_witness :
    emptyBodyCase demoResponse204 = true ∧
    interpretResponse (fun _ => none) demoResponse204 =
      .ok { data := some (JValue.obj []), error := none, response := demoResponse204 } :=
  ⟨rfl, (empty_body_uniform (fun _ => none) demoResponse204 rfl).2.1 rfl⟩

/-- C5 (code bug): the override loop promises to erase a header whose
override value is `null`/`undefined`, but `new Headers(headers)` has already
converted those values to the strings `"null"`/`"undefined"`, so the
deletion branch can never fire and the header is sent with the literal value
`"null"`/`"undefined"` instead of being deleted. -/
theorem null_override_not_deleted :
    headerGet (mergeHeaders (defaultHeadersOf clientWithCacheControl)
        [("Cache-Control", JSVal.jsNull)]) "Cache-Control" = some "null" ∧
    headerGet (mergeHeaders (defaultHeadersOf clientWithCacheControl)
        [("Cache-Control", JSVal.jsUndef)]) "Cache-Control" = some "undefined" :=
  ⟨rfl, rfl⟩

/-- C9 (counterexample): two responses that agree on every member the claim
lists (`status`, `statusText`, `ok`, `headers`, `url`, `redirected`, `type`,
`bodyUsed`) can still produce envelopes with different `response` fields,
because the current revision stores the raw `Response` — body included — in
the envelope.  Were `response` the claimed projection, equal projections
would force equal `response` fields. -/
theorem envelope_response_not_truncated :
    truncateResponse { status := 204, body := "AAA" } =
      truncateResponse { status := 204, body := "BBB" } ∧
    Except.map FetchResponse.response
        (interpretResponse (fun _ => none) { status := 204, body := "AAA" }) =
      .ok { status := 204, body := "AAA" } ∧
    Except.map FetchResponse.response
        (interpretResponse (fun _ => none) { status := 204, body := "BBB" }) =
      .ok { status := 204, body := "BBB" } ∧
    ({ status := 204, body := "AAA" } : Response) ≠ { status := 204, body := "BBB" } :=
  ⟨rfl, rfl, rfl, by decide⟩

/-- C9 (amended): the `response` field of every envelope is the underlying
`Response` object itself, all members included; the `TruncatedResponse`
projection that excludes the body-consuming members exists only in the
earlier revision kept alongside the current source. -/
theorem envelope_response_is_raw (parseJSON : String → Option JValue) (r : Response)
    (env : FetchResponse) (h : interpretResponse parseJSON r = .ok env) :
    env.response = r := by
  obtain ⟨j, rfl⟩ := interpretResponse_ok parseJSON r env h
  exact mkEnvelope_response r j

/-- Witness for the amended C9. -/
theorem envelope_response_is_raw_witness :
    (mkEnvelope demoResponse204 (JValue.obj [])).response = demoResponse204 :=
  envelope_response_is_raw (fun _ => none) demoResponse204
    (mkEnvelope demoResponse204 (JValue.obj [])) rfl

/-- C2: the executed call rejects exactly when the network call fails or when
the body is JSON-parsed (i.e. not special-cased as empty by the 204 /
`Content-Length: 0` rule) and the parse fails; and whenever a non-2xx
response arrives whose body is special-cased or parses, the call does not
reject but returns a Failure envelope carrying the parsed body in `error`. -/
theorem reject_iff_network_or_parse (options : ClientOptions) (url : String)
    (fo : FetchOptions) (pf : Platform) :
    ((∃ e, coreFetch options url fo pf = .error e) ↔
      ((∃ msg, pf.fetchImpl (buildRequest options url fo) = .error msg) ∨
        (∃ r, pf.fetchImpl (buildRequest options url fo) = .ok r ∧
          emptyBodyCase r = false ∧ pf.parseJSON r.body = none))) ∧
    (∀ r j, pf.fetchImpl (buildRequest options url fo) = .ok r → respOk r = false →
      (if emptyBodyCase r then some (JValue.obj []) else pf.parseJSON r.body) = some j →
      coreFetch options url fo pf = .ok { data := none, error := some j, response := r }) := by
  constructor
  · constructor
    · rintro ⟨e, he⟩
      cases hfetch : pf.fetchImpl (buildRequest options url fo) with
      | error msg => exact Or.inl ⟨msg, rfl⟩
      | ok r =>
        rw [coreFetch_of_fetch_ok options url fo pf r hfetch] at he
        unfold interpretResponse at he
        by_cases hempty : emptyBodyCase r = true
        · rw [if_pos hempty] at he
          simp at he
        · rw [if_neg hempty] at he
          cases hparse : pf.parseJSON r.body with
          | some j =>
            rw [hparse] at he
            simp at he
          | none => exact Or.inr ⟨r, rfl, by simpa using hempty, hparse⟩
    · rintro (⟨msg, hmsg⟩ | ⟨r, hr, hempty, hparse⟩)
      · exact ⟨.network msg, coreFetch_of_fetch_error options url fo pf msg hmsg⟩
      · refine ⟨.parseFailure, ?_⟩
        rw [coreFetch_of_fetch_ok options url fo pf r hr]
        unfold interpretResponse
        rw [if_neg (by simp [hempty]), hparse]
  · intro r j hr hok hj
    rw [coreFetch_of_fetch_ok options url fo pf r hr]
    by_cases he : emptyBodyCase r = true
    · rw [if_pos he] at hj
      injection hj with hj
      subst hj
      have hstep : interpretResponse pf.parseJSON r = .ok (mkEnvelope r (JValue.obj [])) := by
        unfold interpretResponse
        rw [if_pos he]
      rw [hstep]
      unfold mkEnvelope
      rw [if_neg (by simp [hok])]
    · rw [if_neg he] at hj
      have hstep : interpretResponse pf.parseJSON r = .ok (mkEnvelope r j) := by
        unfold interpretResponse
        rw [if_neg he, hj]
      rw [hstep]
      unfold mkEnvelope
      rw [if_neg (by simp [hok])]

/-- Witness for C2: a concrete 404 response with a parseable body is returned
as a Failure envelope, not a rejection. -/
theorem reject_iff_network_or_parse_witness :
    coreFetch {} "/post" {} demoPlatform404 =
      .ok { data := none, error := some (JValue.obj []), response := demoResponse404 } :=
  (reject_iff_network_or_parse {} "/post" {} demoPlatform404).2
    demoResponse404 (JValue.obj []) rfl rfl rfl

/-- C6: when the query mapping is absent and when it is present but empty,
the dispatched URL is exactly the URL before the query step (no `?` suffix is
appended); a `?` followed by the serializer's output is appended only for a
non-empty query mapping. -/
theorem empty_query_no_suffix (options : ClientOptions) (url : String) (fo : FetchOptions) :
    (fo.params.query = none →
      buildFinalURL options url fo = urlBeforeQuery options url fo) ∧
    (fo.params.query = some [] →
      buildFinalURL options url fo = urlBeforeQuery options url fo) ∧
    (∀ q, fo.params.query = some q → q ≠ [] →
      buildFinalURL options url fo =
        urlBeforeQuery options url fo ++ "?" ++
          (fo.querySerializer.getD defaultQuerySerializer) q) := by
  refine ⟨fun hq => by unfold buildFinalURL; rw [hq],
    fun hq => by unfold buildFinalURL; rw [hq]; simp, fun q hq hne => ?_⟩
  unfold buildFinalURL
  rw [hq]
  have hlen : q.length ≠ 0 := fun h => hne (List.length_eq_zero.mp h)
  simp [hlen]

/-- Witness for C6: an empty query mapping yields no suffix, a singleton
query mapping yields the serialized suffix. -/
theorem empty_query_no_suffix_witness :
    buildFinalURL {} "/q" { params := { query := some [] } } = "/q" ∧
    buildFinalURL {} "/q" { params := { query := some [("a", "b c")] } } = "/q?a=b+c" :=
  ⟨((empty_query_no_suffix {} "/q" { params := { query := some [] } }).2.1 rfl).trans rfl,
    ((empty_query_no_suffix {} "/q" { params := { query := some [("a", "b c")] } }).2.2
      [("a", "b c")] rfl (by decide)).trans rfl⟩

/-- C7: for every request-option key other than the specially handled
`headers` and `body`, the dispatched value is the call-level value when
supplied, else the client-level default when supplied, else the library
baseline, which consists of `redirect: follow` only.  (The key uniqueness
hypotheses reflect that JS object literals carry unique property keys.) -/
theorem request_option_precedence (options : ClientOptions) (fo : FetchOptions) (k : String)
    (h1 : k ≠ "headers") (h2 : k ≠ "body")
    (hc : ((clientInitRec options).map Prod.fst).Nodup)
    (hf : (fo.rest.map Prod.fst).Nodup) :
    lookupStr (dispatchedInit options fo) k =
      match lookupStr fo.rest k with
      | some v => some v
      | none =>
        match lookupStr (clientInitRec options) k with
        | some v => some v
        | none => if k = "redirect" then some "follow" else none := by
  unfold dispatchedInit
  rw [lookup_filter_hb _ _ h1 h2, lookup_spreadStr _ _ _ hf, lookup_spreadStr _ _ _ hc]
  have hbase : lookupStr baselineInit k = if k = "redirect" then some "follow" else none := by
    unfold baselineInit
    rw [lookupStr_cons]
    by_cases hk : k = "redirect"
    · rw [if_pos (show ("redirect", "follow").1 = k from hk.symm), if_pos hk]
    · rw [if_neg (show ¬ ("redirect", "follow").1 = k from fun hh => hk hh.symm), if_neg hk]
      exact lookupStr_nil k
  rw [hbase]

/-- C4 (counterexample): with template `/p/\x7bx\x7d/\x7bx\x7d` and path
parameter `x = " a "`, the claim predicts `/p/a/a` (every occurrence
replaced, value whitespace-trimmed before encoding); the code substitutes
only the first occurrence and does not trim, producing
`/p/%20a%20/\x7bx\x7d`. -/
theorem path_subst_counterexample :
    substPathParams [("x", " a ")] "/p/\x7bx\x7d/\x7bx\x7d" = "/p/%20a%20/\x7bx\x7d" ∧
    ("/p/%20a%20/\x7bx\x7d" : String) ≠ "/p/a/a" :=
  ⟨rfl, by decide⟩

/-- C4 (amended): for a key/value pair whose placeholder's first occurrence
in the URL follows the prefix `A`, that occurrence — and only it — is
replaced by the percent-encoded (untrimmed) string form of the value; the
worked example dispatches to `/post/post%3Fid%20%3D%20%F0%9F%A5%B4`; and an
unmatched placeholder remains literal in the URL with no error raised. -/
theorem path_subst_first_occurrence :
    (∀ (A k v B : String),
      ¬ ("\x7b" ++ k ++ "\x7d").toList <:+: ((A ++ ("\x7b" ++ k ++ "\x7d")).toList.dropLast) →
      substPathParams [(k, v)] (A ++ ("\x7b" ++ k ++ "\x7d") ++ B) =
        A ++ encodeURIComponent v ++ B) ∧
    buildFinalURL {} "/post/\x7bpost_id\x7d"
        { params := { path := some [("post_id", "post?id = 🥴")] } } =
      "/post/post%3Fid%20%3D%20%F0%9F%A5%B4" ∧
    substPathParams [("other", "x")] "/post/\x7bmissing\x7d" = "/post/\x7bmissing\x7d" := by
  refine ⟨?_, rfl, rfl⟩
  intro A k v B hocc
  have hpat : ("\x7b" ++ k ++ "\x7d").toList ≠ [] := by
    rw [show ("\x7b" ++ k ++ "\x7d").toList = '\x7b' :: (k ++ "\x7d").toList from by
      rw [show ("\x7b" ++ k ++ "\x7d").toList = ("\x7b" : String).data ++ (k ++ "\x7d").data from
        String.data_append _ _]
      rfl]
    exact List.cons_ne_nil _ _
  have hocc2 : ¬ ("\x7b" ++ k ++ "\x7d").toList <:+:
      (A.toList ++ ("\x7b" ++ k ++ "\x7d").toList).dropLast := by
    rw [show A.toList ++ ("\x7b" ++ k ++ "\x7d").toList =
        (A ++ ("\x7b" ++ k ++ "\x7d")).toList from (String.data_append _ _).symm]
    exact hocc
  have hstep : substPathParams [(k, v)] (A ++ ("\x7b" ++ k ++ "\x7d") ++ B) =
      replaceFirstStr (A ++ ("\x7b" ++ k ++ "\x7d") ++ B) ("\x7b" ++ k ++ "\x7d")
        (encodeURIComponent v) := rfl
  rw [hstep]
  unfold replaceFirstStr
  have hdata : (A ++ ("\x7b" ++ k ++ "\x7d") ++ B).toList =
      A.toList ++ ("\x7b" ++ k ++ "\x7d").toList ++ B.toList := by
    rw [show (A ++ ("\x7b" ++ k ++ "\x7d") ++ B).toList =
        (A ++ ("\x7b" ++ k ++ "\x7d")).data ++ B.data from String.data_append _ _,
      show (A ++ ("\x7b" ++ k ++ "\x7d")).data = A.data ++ ("\x7b" ++ k ++ "\x7d").data from
        String.data_append _ _]
    rfl
  rw [hdata, replFirstAux_at_first _ _ _ _ hpat hocc2]
  show String.mk (A.data ++ (encodeURIComponent v).data ++ B.data) = A ++ encodeURIComponent v ++ B
  rw [show A.data ++ (encodeURIComponent v).data ++ B.data =
      (A ++ encodeURIComponent v ++ B).data from by
    rw [String.data_append, String.data_append]]

/-- Witness for the amended C4: the general first-occurrence conjunct applied
at a concrete prefix, key, value, and suffix, discharging the
no-earlier-occurrence hypothesis. -/
theorem path_subst_first_occurrence_witness :
    (¬ ("\x7b" ++ "x" ++ "\x7d").toList <:+:
      (("/p/" ++ ("\x7b" ++ "x" ++ "\x7d")).toList.dropLast)) ∧
    substPathParams [("x", " a ")] ("/p/" ++ ("\x7b" ++ "x" ++ "\x7d") ++ "/t") =
      "/p/" ++ encodeURIComponent " a " ++ "/t" :=
  ⟨by decide, path_subst_first_occurrence.1 "/p/" "x" " a " "/t" (by decide)⟩

/-- Witness for C7: a client-level `credentials` option survives under a
call-level `method` entry, and the baseline `redirect: follow` applies when
neither level supplies one. -/
theorem request_option_precedence_witness :
    lookupStr (dispatchedInit { rest := [("credentials", "include")] }
        { rest := [("method", "GET")] }) "credentials" = some "include" ∧
    lookupStr (dispatchedInit {} {}) "redirect" = some "follow" :=
  ⟨(request_option_precedence { rest := [("credentials", "include")] }
      { rest := [("method", "GET")] } "credentials"
      (by decide) (by decide) (by decide) (by decide)).trans rfl,
    (request_option_precedence {} {} "redirect"
      (by decide) (by decide) (by decide) (by decide)).trans rfl⟩

/-- C10: header names are matched case-insensitively and canonicalized by the
`Headers` container, so the merged set contains at most one entry per
case-insensitive name (the names are pairwise distinct), and an override
keyed by any case variant replaces the existing entry — afterwards the
looked-up value for that name is exactly the override's value. -/
theorem header_merge_case_insensitive :
    (∀ (options : ClientOptions) (overrides : List (String × JSVal)),
      ((mergeHeaders (defaultHeadersOf options) overrides).map Prod.fst).Nodup) ∧
    (∀ (options : ClientOptions) (k v : String),
      headerGet (mergeHeaders (defaultHeadersOf options) [(k, JSVal.str v)]) k = some v) := by
  constructor
  · intro options overrides
    simp only [mergeHeaders]
    exact nodup_names_override_fold _ _
      (nodup_names_headersClone _ (allLower_defaultHeadersOf options))
  · intro options k v
    have hstep : mergeHeaders (defaultHeadersOf options) [(k, JSVal.str v)] =
        applyOverride (headersClone (defaultHeadersOf options)) (lowerName k, v) := by
      simp only [mergeHeaders]
      rw [show headersFromRecord [(k, JSVal.str v)] = [(lowerName k, v)] from rfl,
        show entriesOf [(lowerName k, v)] = [(lowerName k, v)] from sortCombine_single _ _]
      rfl
    rw [hstep]
    unfold applyOverride
    rw [if_neg (by simp [isNullish])]
    have hget := headerGet_headerSet (headersClone (defaultHeadersOf options)) (lowerName k) v
    rw [lowerName_idem, headerGet_lowerName] at hget
    exact hget

/-- C8: no call mutates the client's default header set.  In the explicit-heap
form of the executor, the `Headers` object holding the defaults reads the same
after any call as before it (the merge operates on a per-call clone), and a
subsequent identical call — dispatched against the heap the first call left
behind — produces the same result, observing the defaults captured at
construction. -/
theorem client_defaults_immutable (options : ClientOptions) (url : String)
    (fo : FetchOptions) (pf : Platform) (s : Heap) (defRef : Nat)
    (h : defRef < s.length) :
    heapRead (coreFetchSt defRef options url fo pf s).2 defRef = heapRead s defRef ∧
    (coreFetchSt defRef options url fo pf (coreFetchSt defRef options url fo pf s).2).1 =
      (coreFetchSt defRef options url fo pf s).1 := by
  have hpres : heapRead (coreFetchSt defRef options url fo pf s).2 defRef = heapRead s defRef := by
    rw [show (coreFetchSt defRef options url fo pf s).2 =
        (mergeHeadersSt s defRef fo.headers).1 from rfl]
    exact mergeHeadersSt_read_defaults s defRef fo.headers h
  exact ⟨hpres, by rw [coreFetchSt_fst, coreFetchSt_fst, hpres]⟩

/-- Witness for C8: a freshly constructed client's defaults object survives a
concrete call unchanged, and repeating the call yields the same envelope. -/
theorem client_defaults_immutable_witness :
    heapRead (coreFetchSt (createClientSt {} []).2 {} "/self" {} demoPlatform200
        (createClientSt {} []).1).2 (createClientSt {} []).2 =
      heapRead (createClientSt {} []).1 (createClientSt {} []).2 ∧
    (coreFetchSt (createClientSt {} []).2 {} "/self" {} demoPlatform200
        (coreFetchSt (createClientSt {} []).2 {} "/self" {} demoPlatform200
          (createClientSt {} []).1).2).1 =
      (coreFetchSt (createClientSt {} []).2 {} "/self" {} demoPlatform200
        (createClientSt {} []).1).1 :=
  client_defaults_immutable {} "/self" {} demoPlatform200
    (createClientSt {} []).1 (createClientSt {} []).2 (by decide)

end OpenapiFetch
